import Mathlib

/-!
Shallow embedding of the quill-bot tutoring core: quiz grading, the
learning-session state transitions driven by quiz outcomes and topic
completion, and the chapter/topic extraction heuristics of
`ChapterExtractor`.  Definitions mirror the TypeScript source
(`src/lib/chapterExtractor.ts` and the tRPC `submitQuizAnswers` /
`completeTopic` handlers); theorems settle the specification's claims
about them.
-/

set_option linter.unusedVariables false

/-! ## Quiz data model (fields read by the grading code) -/

/-- Stored quiz question (`QuizQuestion`): the fields the grading code reads. -/
structure QuizQuestion where
  id : String
  correctAnswer : String
  topicCovered : String
deriving DecidableEq, Repr

/-- One submitted answer from the client (`answers` array element). -/
structure SubmittedAnswer where
  questionId : String
  selectedAnswer : String
deriving DecidableEq, Repr

/-- Graded answer as built by `submitQuizAnswers`; `correctAnswer` and
`topicCovered` are `none` when the looked-up question is missing
(JS `question?.field` evaluating to `undefined`). -/
structure GradedAnswer where
  questionId : String
  selectedAnswer : String
  correctAnswer : Option String
  isCorrect : Bool
  topicCovered : Option String
deriving DecidableEq, Repr

/-- Grade one submitted answer: mirrors
`questions.find(q => q.id === answer.questionId)` followed by
`question?.correctAnswer === answer.selectedAnswer` (a comparison with
`undefined` is `false`). -/
def gradeOne (questions : List QuizQuestion) (answer : SubmittedAnswer) : GradedAnswer :=
  match questions.find? (fun q => q.id == answer.questionId) with
  | some q =>
      { questionId := answer.questionId
        selectedAnswer := answer.selectedAnswer
        correctAnswer := some q.correctAnswer
        isCorrect := q.correctAnswer == answer.selectedAnswer
        topicCovered := some q.topicCovered }
  | none =>
      { questionId := answer.questionId
        selectedAnswer := answer.selectedAnswer
        correctAnswer := none
        isCorrect := false
        topicCovered := none }

/-- The graded-answer list `answers.map(answer => ...)`. -/
def gradeAnswersOf (questions : List QuizQuestion) (answers : List SubmittedAnswer) :
    List GradedAnswer :=
  answers.map (gradeOne questions)

/-- JS truthiness of a `string | undefined` value: `undefined` and `""` are falsy. -/
def truthyStr : Option String → Bool
  | none => false
  | some s => !(s == "")

/-- Position of the first element equal to `x` (JS `Array.prototype.indexOf`
with `===`); returns the list length when absent. -/
def jsIndexOf (x : Option String) : List (Option String) → Nat
  | [] => 0
  | y :: l => if y = x then 0 else jsIndexOf x l + 1

/-- Mirrors `arr.filter((topic, index, self) => topic && self.indexOf(topic) === index)`
followed by the `as string[]` cast (extracting the string). -/
def jsDedupTruthy (arr : List (Option String)) : List String :=
  (arr.enum.filter (fun p => truthyStr p.2 && decide (jsIndexOf p.2 arr = p.1))).map
    (fun p => p.2.getD "")

/-- The `weakTopics` computation of `submitQuizAnswers`. -/
def weakTopicsOf (questions : List QuizQuestion) (answers : List SubmittedAnswer) :
    List String :=
  jsDedupTruthy (((gradeAnswersOf questions answers).filter (fun a => !a.isCorrect)).map
    (fun a => a.topicCovered))

/-- Result record returned by `submitQuizAnswers` (minus the persisted attempt row). -/
structure QuizSubmitResult where
  score : Nat
  totalQuestions : Nat
  passed : Bool
  weakTopics : List String
  gradedAnswers : List GradedAnswer
deriving DecidableEq, Repr

/-- Pure grading core of `submitQuizAnswers`: score is the number of correct
graded answers, the pass threshold is the hardcoded `score >= 6`. -/
def submitQuizGrade (questions : List QuizQuestion) (answers : List SubmittedAnswer) :
    QuizSubmitResult :=
  let gradedAnswers := gradeAnswersOf questions answers
  let score := (gradedAnswers.filter (fun a => a.isCorrect)).length
  { score := score
    totalQuestions := answers.length
    passed := decide (6 ≤ score)
    weakTopics := weakTopicsOf questions answers
    gradedAnswers := gradedAnswers }

/-! ## Learning state and its transitions -/

/-- Per-session `LearningState` fields touched by the handlers under study
(`lastInteraction` timestamps are outside the embedding). -/
structure LearningState where
  currentChapter : Nat
  currentTopic : Nat
  learningPhase : String
  messageCount : Nat
  chaptersCompleted : List Nat
  quizzesPassed : List Nat
  needsReview : Bool
  reviewTopics : List String
deriving DecidableEq, Repr

/-- The `learningState.update` performed by `submitQuizAnswers` after grading:
pass unlocks the next chapter, fail forces review. -/
def applyQuizOutcome (chapterNumber : Nat) (passed : Bool) (weakTopics : List String)
    (st : LearningState) : LearningState :=
  if passed then
    { st with
      chaptersCompleted := st.chaptersCompleted ++ [chapterNumber]
      quizzesPassed := st.quizzesPassed ++ [chapterNumber]
      currentChapter := chapterNumber + 1
      currentTopic := 1
      learningPhase := "introduction"
      needsReview := false
      messageCount := 0 }
  else
    { st with
      learningPhase := "review"
      needsReview := true
      reviewTopics := weakTopics }

/-- Grading plus the resulting learning-state update, as one pure function. -/
def submitQuizAnswersState (questions : List QuizQuestion) (answers : List SubmittedAnswer)
    (chapterNumber : Nat) (st : LearningState) : QuizSubmitResult × LearningState :=
  let r := submitQuizGrade questions answers
  (r, applyQuizOutcome chapterNumber r.passed r.weakTopics st)

/-- The `completeTopic` handler's learning-state update. `chapterTopicCount` is
`some T` when the chapter row exists and has `T` topics, `none` when the chapter
is missing; the returned flag is the handler's `quizReady` field. -/
def completeTopicState (chapterTopicCount : Option Nat) (topicNumber : Nat)
    (st : LearningState) : LearningState × Bool :=
  match chapterTopicCount with
  | some totalTopics =>
      if 0 < totalTopics ∧ totalTopics ≤ topicNumber then
        ({ st with learningPhase := "quiz-ready", messageCount := 0 }, true)
      else
        ({ st with currentTopic := topicNumber + 1, messageCount := 0 }, false)
  | none => ({ st with currentTopic := topicNumber + 1, messageCount := 0 }, false)

/-! ## Spec-side characterisations used to state the claims -/

/-- Whether the stored questions grade a submitted answer as correct: the
claim's wording (selected answer string-equal to the stored question's
correct answer). -/
def answerCorrect (questions : List QuizQuestion) (a : SubmittedAnswer) : Bool :=
  match questions.find? (fun q => q.id == a.questionId) with
  | some q => q.correctAnswer == a.selectedAnswer
  | none => false

/-- First-occurrence deduplication of the truthy (present, non-empty) values
in a `string | undefined` list, preserving order. -/
def dedupTruthyFirst (seen : List (Option String)) : List (Option String) → List String
  | [] => []
  | t :: rest =>
      if truthyStr t = true ∧ t ∉ seen then
        t.getD "" :: dedupTruthyFirst (seen ++ [t]) rest
      else
        dedupTruthyFirst (seen ++ [t]) rest

/-- First-occurrence deduplication of a plain string list. -/
def dedupFirstStr (seen : List String) : List String → List String
  | [] => []
  | t :: rest =>
      if t ∉ seen then t :: dedupFirstStr (seen ++ [t]) rest
      else dedupFirstStr (seen ++ [t]) rest

/-- The claim's reading of weak topics: deduplicated `topicCovered` values of
incorrect answers (first-occurrence order), with no emptiness filtering. -/
def weakTopicsClaim (questions : List QuizQuestion) (answers : List SubmittedAnswer) :
    List String :=
  dedupFirstStr [] (((gradeAnswersOf questions answers).filter (fun a => !a.isCorrect)).filterMap
    (fun a => a.topicCovered))

/-! ## Concrete data used by witnesses and counterexamples -/

/-- Ten stored questions (a full quiz), all with correct answer "A". -/
def exQuestionsTen : List QuizQuestion :=
  [⟨"q1", "A", "t1"⟩, ⟨"q2", "A", "t2"⟩, ⟨"q3", "A", "t3"⟩, ⟨"q4", "A", "t4"⟩,
   ⟨"q5", "A", "t5"⟩, ⟨"q6", "A", "t6"⟩, ⟨"q7", "A", "t7"⟩, ⟨"q8", "A", "t8"⟩,
   ⟨"q9", "A", "t9"⟩, ⟨"q10", "A", "t10"⟩]

/-- Ten answers with exactly six correct. -/
def exAnswersSix : List SubmittedAnswer :=
  [⟨"q1", "A"⟩, ⟨"q2", "A"⟩, ⟨"q3", "A"⟩, ⟨"q4", "A"⟩, ⟨"q5", "A"⟩, ⟨"q6", "A"⟩,
   ⟨"q7", "B"⟩, ⟨"q8", "B"⟩, ⟨"q9", "B"⟩, ⟨"q10", "B"⟩]

/-- Ten answers with exactly five correct. -/
def exAnswersFive : List SubmittedAnswer :=
  [⟨"q1", "A"⟩, ⟨"q2", "A"⟩, ⟨"q3", "A"⟩, ⟨"q4", "A"⟩, ⟨"q5", "A"⟩,
   ⟨"q6", "B"⟩, ⟨"q7", "B"⟩, ⟨"q8", "B"⟩, ⟨"q9", "B"⟩, ⟨"q10", "B"⟩]

/-- Answers whose first entry references a question id that is not stored. -/
def exAnswersMissing : List SubmittedAnswer :=
  [⟨"zzz", "A"⟩, ⟨"q1", "A"⟩]

/-- A learning state sitting in the quiz-ready phase of chapter 2. -/
def stQuizReady : LearningState :=
  ⟨2, 3, "quiz-ready", 5, [1], [1], false, []⟩

/-- A learning state in the learning phase of chapter 1, topic 2. -/
def stLearning : LearningState :=
  ⟨1, 2, "learning", 4, [], [], false, []⟩

/-- A stored question whose `topicCovered` is the empty string. -/
def qEmptyTopic : QuizQuestion := ⟨"q1", "A", ""⟩

/-- An incorrect answer to `qEmptyTopic`. -/
def aWrongEmptyTopic : SubmittedAnswer := ⟨"q1", "B"⟩

/-! ## ChapterExtractor: page breaks and chapter finalisation -/

/-- Chapter record built by `ChapterExtractor` (`ChapterInfo`). Index and page
fields are integers because the code uses `-1` placeholders and an end index
can be one less than a zero start index. -/
structure ChapterInfo where
  chapterNumber : Nat
  title : String
  startIndex : Int
  endIndex : Int
  startPage : Int
  endPage : Int
deriving DecidableEq, Repr

/-- Match a literal character sequence; on success return the remaining input. -/
def matchLit : List Char → List Char → Option (List Char)
  | [], s => some s
  | _ :: _, [] => none
  | c :: lit, d :: s => if d = c then matchLit lit s else none

/-- Match the OCR page marker pattern (the regex source text
"--- Page \\d+ ---") at the head of the input, returning its length. -/
def matchOCRAt (s : List Char) : Option Nat :=
  match matchLit "--- Page ".toList s with
  | none => none
  | some s1 =>
      let ds := s1.takeWhile Char.isDigit
      if ds.isEmpty then none
      else
        match matchLit " ---".toList (s1.drop ds.length) with
        | none => none
        | some _ => some ("--- Page ".toList.length + ds.length + " ---".toList.length)

/-- Leftmost non-overlapping scan for OCR page markers (the semantics of
repeated `regex.exec`), returning their start offsets. The fuel argument is
the remaining input length. -/
def ocrScanF : Nat → List Char → Nat → List Nat
  | 0, _, _ => []
  | _ + 1, [], _ => []
  | fuel + 1, c :: rest, pos =>
      match matchOCRAt (c :: rest) with
      | some len => pos :: ocrScanF fuel ((c :: rest).drop len) (pos + len)
      | none => ocrScanF fuel rest (pos + 1)

/-- Offsets of every form-feed character (the fallback page-break scan). -/
def ffScan : List Char → Nat → List Nat
  | [], _ => []
  | c :: rest, pos =>
      if c = '\x0c' then pos :: ffScan rest (pos + 1) else ffScan rest (pos + 1)

/-- The `findPageBreaks` routine: 0, then OCR marker offsets (or form-feed
offsets when no OCR marker exists), then the text length. -/
def findPageBreaks (text : List Char) : List Int :=
  let ocr := ocrScanF text.length text 0
  let mids := if ocr.isEmpty then ffScan text 0 else ocr
  (0 : Int) :: (mids.map (fun n => (n : Int)) ++ [(text.length : Int)])

/-- Loop body of `getPageNumber`: walk consecutive break pairs with a 1-based
page counter; `fallback` is the function's `Math.max(1, length - 1)` result. -/
def getPageNumberGo (fallback : Nat) : List Int → Nat → Int → Nat
  | b1 :: b2 :: rest, p, t =>
      if b1 ≤ t ∧ t < b2 then p else getPageNumberGo fallback (b2 :: rest) (p + 1) t
  | _, _, _ => fallback

/-- The `getPageNumber` lookup: 1-based page whose half-open break range
contains the index, with the clamped fallback for out-of-range indices. -/
def getPageNumber (pageBreaks : List Int) (textIndex : Int) : Nat :=
  getPageNumberGo (max 1 (pageBreaks.length - 1)) pageBreaks 1 textIndex

/-- The `chapters.sort((a, b) => a.startIndex - b.startIndex)` call; insertion
sort is stable, like the JS runtime sort on small arrays. -/
def sortByStart (cs : List ChapterInfo) : List ChapterInfo :=
  List.insertionSort (fun a b => a.startIndex ≤ b.startIndex) cs

/-- End-index assignment loop of `finalizeChapters`: every chapter ends one
character before the next chapter's start, the last one at the text end. -/
def assignEnds (pageBreaks : List Int) (textLen : Int) : List ChapterInfo → List ChapterInfo
  | [] => []
  | [c] => [{ c with endIndex := textLen, endPage := (pageBreaks.length : Int) - 1 }]
  | c1 :: c2 :: rest =>
      { c1 with
        endIndex := c2.startIndex - 1
        endPage := (getPageNumber pageBreaks (c2.startIndex - 1) : Int) } ::
        assignEnds pageBreaks textLen (c2 :: rest)

/-- The `finalizeChapters` post-processing: sort by start index, then fill in
end indices and end pages. -/
def finalizeChapters (pageBreaks : List Int) (textLen : Int) (cs : List ChapterInfo) :
    List ChapterInfo :=
  assignEnds pageBreaks textLen (sortByStart cs)

/-! ## A small backtracking regex engine

The heuristic detectors are driven by JS regexes.  We embed each regex as a
value of `RE` and run it with a fuel-bounded continuation-passing matcher that
follows the JS backtracking order (alternation left to right, greedy
repetition longest first, lazy repetition shortest first, empty star
iterations cut off).  All source patterns are anchored `^...$` patterns on
single lines, so only full matches on the line are needed. -/

/-- Regex abstract syntax: literals (optionally case-insensitive), one-char
classes, greedy or lazy star and plus, greedy option, sequence, ordered
alternation, and numbered capture groups. -/
inductive RE where
  | lit (s : List Char) (ci : Bool)
  | cls (p : Char → Bool)
  | star (lazy : Bool) (e : RE)
  | plus (lazy : Bool) (e : RE)
  | opt (e : RE)
  | seq (es : List RE)
  | alt (es : List RE)
  | grp (n : Nat) (e : RE)

/-- Match a literal, case-sensitively or not; on success return the rest. -/
def matchLitCI (ci : Bool) : List Char → List Char → Option (List Char)
  | [], s => some s
  | _ :: _, [] => none
  | c :: lit, d :: s =>
      if (if ci then c.toLower = d.toLower else c = d) then matchLitCI ci lit s else none

/-- Continuation-passing matcher.  The continuation receives the remaining
input and the captures recorded so far; `none` signals backtracking.  Fuel
decreases on every recursive call, and the top-level entry point supplies
enough of it that no source pattern here ever exhausts it on a line. -/
def reM : Nat → RE → List Char → List (Nat × List Char) →
    (List Char → List (Nat × List Char) → Option (List (Nat × List Char))) →
    Option (List (Nat × List Char))
  | 0, _, _, _, _ => none
  | _ + 1, RE.lit lit ci, s, caps, k =>
      match matchLitCI ci lit s with
      | some s' => k s' caps
      | none => none
  | _ + 1, RE.cls p, s, caps, k =>
      match s with
      | [] => none
      | c :: s' => if p c then k s' caps else none
  | fuel + 1, RE.star lz e, s, caps, k =>
      if lz then
        match k s caps with
        | some r => some r
        | none =>
            reM fuel e s caps (fun s' caps' =>
              if s'.length < s.length then reM fuel (RE.star lz e) s' caps' k else none)
      else
        match reM fuel e s caps (fun s' caps' =>
            if s'.length < s.length then reM fuel (RE.star lz e) s' caps' k else none) with
        | some r => some r
        | none => k s caps
  | fuel + 1, RE.plus lz e, s, caps, k =>
      reM fuel e s caps (fun s' caps' => reM fuel (RE.star lz e) s' caps' k)
  | fuel + 1, RE.opt e, s, caps, k =>
      match reM fuel e s caps k with
      | some r => some r
      | none => k s caps
  | fuel + 1, RE.seq es, s, caps, k =>
      match es with
      | [] => k s caps
      | e :: rest => reM fuel e s caps (fun s' caps' => reM fuel (RE.seq rest) s' caps' k)
  | fuel + 1, RE.alt es, s, caps, k =>
      match es with
      | [] => none
      | e :: rest =>
          match reM fuel e s caps k with
          | some r => some r
          | none => reM fuel (RE.alt rest) s caps k
  | fuel + 1, RE.grp n e, s, caps, k =>
      reM fuel e s caps (fun s' caps' => k s' ((n, s.take (s.length - s'.length)) :: caps'))

/-- Fuel budget for a full-line match. -/
def reFuel (s : List Char) : Nat := 100 * (s.length + 10)

/-- Anchored match of a whole line, returning the captures on success. -/
def reFullMatch (e : RE) (s : List Char) : Option (List (Nat × List Char)) :=
  reM (reFuel s) e s [] (fun s' caps => if s'.isEmpty then some caps else none)

/-- Extract a numbered capture (empty when the group is absent). -/
def capList (n : Nat) (caps : List (Nat × List Char)) : List Char :=
  ((caps.find? (fun p => p.1 == n)).map Prod.snd).getD []

/-- JS `\s` on the code points the source texts use. -/
def isSpaceChar (c : Char) : Bool :=
  c == ' ' || c == '\t' || c == '\n' || c == '\r' || c == '\x0c' || c == '\x0b'

/-- JS `\w` (and the redundant `[\w\d]`): ASCII letters, digits, underscore. -/
def isWordChar (c : Char) : Bool := c.isAlpha || c.isDigit || c == '_'

/-- JS `.` without the dot-all flag: anything but a line terminator. -/
def jsAnyChar (c : Char) : Bool := !(c == '\n' || c == '\r')

/-- Bounded-below repetition `e{n,}` (always greedy in the source patterns). -/
def reAtLeast (n : Nat) (e : RE) : RE := RE.seq (List.replicate n e ++ [RE.star false e])

/-- Value of `parseInt` on an all-digit capture. -/
def digitsToNat (s : List Char) : Nat :=
  s.foldl (fun acc c => acc * 10 + (c.toNat - '0'.toNat)) 0

/-- JS `String.prototype.trim` on the character list (ASCII whitespace). -/
def jsTrim (s : List Char) : List Char :=
  ((s.dropWhile isSpaceChar).reverse.dropWhile isSpaceChar).reverse

/-- JS `text.split('\n')`. -/
def splitNlGo : List Char → List Char → List (List Char)
  | [], acc => [acc.reverse]
  | c :: rest, acc =>
      if c = '\n' then acc.reverse :: splitNlGo rest [] else splitNlGo rest (c :: acc)

/-- Split a character list at every newline. -/
def splitNl (s : List Char) : List (List Char) := splitNlGo s []

/-! ## ChapterExtractor: Table-of-Contents line scanning -/

/-- The shared `([\w\d]+(?:[.-]\d+)*)` chapter-number group of both ToC line
strategies. -/
def tocNumGroup : RE :=
  RE.grp 1 (RE.seq [RE.plus false (RE.cls isWordChar),
    RE.star false (RE.seq [RE.cls (fun c => c == '.' || c == '-'),
      RE.plus false (RE.cls Char.isDigit)])])

/-- ToC strategy (a): dot-leader layout
`^(?:Chapter\s+)?([\w\d]+(?:[.-]\d+)*)\s*[:.]?\s+(.*?)\.{3,}\s*(\d+)$` (case-insensitive). -/
def tocStrategy1 : RE :=
  RE.seq [
    RE.opt (RE.seq [RE.lit "Chapter".toList true, RE.plus false (RE.cls isSpaceChar)]),
    tocNumGroup,
    RE.star false (RE.cls isSpaceChar),
    RE.opt (RE.cls (fun c => c == ':' || c == '.')),
    RE.plus false (RE.cls isSpaceChar),
    RE.grp 2 (RE.star true (RE.cls jsAnyChar)),
    reAtLeast 3 (RE.cls (fun c => c == '.')),
    RE.star false (RE.cls isSpaceChar),
    RE.grp 3 (RE.plus false (RE.cls Char.isDigit))]

/-- ToC strategy (b): wide-gap layout
`^([\w\d]+(?:[.-]\d+)*)\.?\s+(.*?)\s{3,}(\d+)$`. -/
def tocStrategy2 : RE :=
  RE.seq [
    tocNumGroup,
    RE.opt (RE.cls (fun c => c == '.')),
    RE.plus false (RE.cls isSpaceChar),
    RE.grp 2 (RE.star true (RE.cls jsAnyChar)),
    reAtLeast 3 (RE.cls isSpaceChar),
    RE.grp 3 (RE.plus false (RE.cls Char.isDigit))]

/-- The ordered strategy list of `detectToC`. -/
def tocStrategies : List RE := [tocStrategy1, tocStrategy2]

/-- First strategy whose regex matches the whole trimmed line (the loop's
`break` fires on a match even when the page check then fails). -/
def tocFirstMatch : List RE → List Char → Option (List (Nat × List Char))
  | [], _ => none
  | p :: rest, s =>
      match reFullMatch p s with
      | some caps => some caps
      | none => tocFirstMatch rest s

/-- Case-insensitive literal prefix test. -/
def ciHasPre (p : String) (s : List Char) : Bool := (matchLitCI true p.toList s).isSome

/-- The `^Glossary|^Index|^Appendix` (case-insensitive) end-of-ToC marker. -/
def isEndMarker (s : List Char) : Bool :=
  ciHasPre "Glossary" s || ciHasPre "Index" s || ciHasPre "Appendix" s

/-- Scanner state of the `detectToC` line loop: accumulated chapters, the
strict sequential counter, and the consecutive-miss count. -/
structure TocScanState where
  chapters : List ChapterInfo
  counter : Nat
  misses : Nat
deriving Repr

/-- The line-scanning loop of `detectToC` (the part after the header and the
blob special case), parameterised by `this.pageBreaks.length`. -/
def detectToCScanGo (pageBreaksLen : Nat) : List (List Char) → TocScanState → List ChapterInfo
  | [], st => st.chapters
  | line :: rest, st =>
      let trimmed := jsTrim line
      if trimmed.isEmpty then detectToCScanGo pageBreaksLen rest st
      else if isEndMarker trimmed ∧ 3 < st.chapters.length then st.chapters
      else
        match tocFirstMatch tocStrategies trimmed with
        | some caps =>
            let numStr := String.mk (capList 1 caps)
            let title := String.mk (jsTrim (capList 2 caps))
            let page := digitsToNat (capList 3 caps)
            if page ≤ pageBreaksLen ∧ 0 < page then
              detectToCScanGo pageBreaksLen rest
                { chapters := st.chapters ++
                    [{ chapterNumber := st.counter + 1,
                       title := numStr ++ " " ++ title,
                       startIndex := -1, endIndex := -1,
                       startPage := (page : Int), endPage := -1 }],
                  counter := st.counter + 1, misses := 0 }
            else if 5 < st.chapters.length ∧ 25 < st.misses + 1 then st.chapters
            else detectToCScanGo pageBreaksLen rest { st with misses := st.misses + 1 }
        | none =>
            if 5 < st.chapters.length ∧ 25 < st.misses + 1 then st.chapters
            else detectToCScanGo pageBreaksLen rest { st with misses := st.misses + 1 }

/-- Entry point of the ToC line scan, from the empty state. -/
def detectToCScan (pageBreaksLen : Nat) (lines : List (List Char)) : List ChapterInfo :=
  detectToCScanGo pageBreaksLen lines ⟨[], 0, 0⟩

/-! ## ChapterExtractor: heading-based detection (`detectChaptersSmart`) -/

/-- First index of a needle at or after `start` (JS `String.prototype.indexOf`
with a fromIndex), `-1` when absent; negative start is clamped to 0. -/
def findSubAux : List Char → List Char → Nat → Option Nat
  | [], ned, pos => if ned.isEmpty then some pos else none
  | c :: rest, ned, pos =>
      if (matchLit ned (c :: rest)).isSome then some pos
      else findSubAux rest ned (pos + 1)

/-- JS `hay.indexOf(ned, start)`. -/
def jsStrIndexOf (hay ned : List Char) (start : Int) : Int :=
  let s0 := start.toNat
  match findSubAux (hay.drop s0) ned s0 with
  | some p => (p : Int)
  | none => -1

/-- The `/[.,;:]$/` sentence-punctuation test on a raw line. -/
def endsInPunct (s : List Char) : Bool :=
  match s.getLast? with
  | some c => c == '.' || c == ',' || c == ';' || c == ':'
  | none => false

/-- The `/^(see|refer to|in|read|shown in)/i` back-reference test. -/
def startsRefWord (s : List Char) : Bool :=
  ciHasPre "see" s || ciHasPre "refer to" s || ciHasPre "in" s ||
    ciHasPre "read" s || ciHasPre "shown in" s

/-- The `isStrongHeader` check: the candidate line (raw, possibly empty) must
not be a back-reference and must be visually isolated or free of trailing
clause punctuation. -/
def isStrongHeader (lines : List (List Char)) (index : Nat) : Bool :=
  match lines[index]? with
  | none => false
  | some line =>
      if line.isEmpty then false
      else
        let prev := if index = 0 then [] else jsTrim ((lines[index - 1]?).getD [])
        let next := jsTrim ((lines[index + 1]?).getD [])
        let isIsolated := (prev.isEmpty || prev.length < 5) || (next.isEmpty || next.length < 5)
        let endsSentence := endsInPunct line
        let isReference := startsRefWord line
        !isReference && (isIsolated || !endsSentence)

/-- The `[\s:\-–—]+` separator class of the heading patterns. -/
def sepDashChar (c : Char) : Bool :=
  isSpaceChar c || c == ':' || c == '-' || c == '–' || c == '—'

/-- Heading pattern `^Chapter\s+(\d+)[\s:\-–—]+(.+)$` (case-insensitive). -/
def headChapterRE : RE :=
  RE.seq [RE.lit "Chapter".toList true, RE.plus false (RE.cls isSpaceChar),
    RE.grp 1 (RE.plus false (RE.cls Char.isDigit)),
    RE.plus false (RE.cls sepDashChar),
    RE.grp 2 (RE.plus false (RE.cls jsAnyChar))]

/-- Heading pattern `^(\d+)\.\s+([A-Z][A-Za-z\s:,-]+)$` (strict capitalisation). -/
def headNumDotRE : RE :=
  RE.seq [RE.grp 1 (RE.plus false (RE.cls Char.isDigit)),
    RE.lit ".".toList false,
    RE.plus false (RE.cls isSpaceChar),
    RE.grp 2 (RE.seq [RE.cls Char.isUpper,
      RE.plus false (RE.cls (fun c => c.isAlpha || isSpaceChar c || c == ':' || c == ',' || c == '-'))])]

/-- Heading pattern `^<word>\s+(\d+)[\s:\-–—]+(.+)$` (case-insensitive), used
for Unit, Module, Section and PART. -/
def headWordRE (w : String) : RE :=
  RE.seq [RE.lit w.toList true, RE.plus false (RE.cls isSpaceChar),
    RE.grp 1 (RE.plus false (RE.cls Char.isDigit)),
    RE.plus false (RE.cls sepDashChar),
    RE.grp 2 (RE.plus false (RE.cls jsAnyChar))]

/-- The ordered pattern list of `detectChaptersSmart`. -/
def smartPatterns : List RE :=
  [headChapterRE, headNumDotRE, headWordRE "Unit", headWordRE "Module",
   headWordRE "Section", headWordRE "PART"]

/-- Inner pattern loop of `detectChaptersSmart`: the first pattern that
matches a strong, not-yet-recorded chapter number yields the new chapter;
a match that is weak or a duplicate falls through to the next pattern.
(The source's `lastChapterPage` variable is write-only and omitted.) -/
def tryPatternsSmart : List RE → List Char → List (List Char) → Nat → Int → List Int →
    List ChapterInfo → Option ChapterInfo
  | [], _, _, _, _, _, _ => none
  | pat :: rest, trimmed, lines, i, curIdx, pbs, chapters =>
      match reFullMatch pat trimmed with
      | some caps =>
          let num := digitsToNat (capList 1 caps)
          let title := String.mk (jsTrim (capList 2 caps))
          let page := getPageNumber pbs curIdx
          if isStrongHeader lines i then
            if (chapters.find? (fun c => c.chapterNumber == num)).isSome then
              tryPatternsSmart rest trimmed lines i curIdx pbs chapters
            else
              some { chapterNumber := num, title := title, startIndex := curIdx,
                     endIndex := -1, startPage := (page : Int), endPage := -1 }
          else tryPatternsSmart rest trimmed lines i curIdx pbs chapters
      | none => tryPatternsSmart rest trimmed lines i curIdx pbs chapters

/-- Line loop of `detectChaptersSmart`: track the text offset with
`indexOf(line, currentIndex)`, skip trivial lines, and accumulate accepted
headings. -/
def smartGo (text : List Char) (pbs : List Int) (lines : List (List Char)) :
    List (List Char) → Nat → Int → List ChapterInfo → List ChapterInfo
  | [], _, _, chapters => chapters
  | l :: rest, i, curIdx, chapters =>
      let newIdx := jsStrIndexOf text l curIdx
      let trimmed := jsTrim l
      if trimmed.length < 4 ∨ 100 < trimmed.length then
        smartGo text pbs lines rest (i + 1) newIdx chapters
      else
        match tryPatternsSmart smartPatterns trimmed lines i newIdx pbs chapters with
        | some c => smartGo text pbs lines rest (i + 1) newIdx (chapters ++ [c])
        | none => smartGo text pbs lines rest (i + 1) newIdx chapters

/-- The `chapters.sort((a, b) => a.chapterNumber - b.chapterNumber)` call. -/
def sortByNumber (cs : List ChapterInfo) : List ChapterInfo :=
  List.insertionSort (fun a b => a.chapterNumber ≤ b.chapterNumber) cs

/-- The `detectChaptersSmart` fallback detector (the page-break table is a
parameter standing for `this.pageBreaks`). -/
def detectChaptersSmart (text : List Char) (pbs : List Int) : List ChapterInfo :=
  let lines := splitNl text
  sortByNumber (smartGo text pbs lines lines 0 0 [])

/-! ## ChapterExtractor: topic segmentation (`identifyTopics`) -/

/-- Topic pattern `^(\d+\.?\d*)\s+(.+?)$`. -/
def topicNumDotRE : RE :=
  RE.seq [RE.grp 1 (RE.seq [RE.plus false (RE.cls Char.isDigit),
      RE.opt (RE.cls (fun c => c == '.')), RE.star false (RE.cls Char.isDigit)]),
    RE.plus false (RE.cls isSpaceChar),
    RE.grp 2 (RE.plus true (RE.cls jsAnyChar))]

/-- Topic pattern `^([A-Z])\.\s+(.+?)$`. -/
def topicLetterRE : RE :=
  RE.seq [RE.grp 1 (RE.cls Char.isUpper), RE.lit ".".toList false,
    RE.plus false (RE.cls isSpaceChar), RE.grp 2 (RE.plus true (RE.cls jsAnyChar))]

/-- Topic pattern `^(?:W|UPPER)\s+(\d+)[\s:.-]*(.+?)$` for Section and Topic. -/
def topicWordRE (w1 w2 : String) : RE :=
  RE.seq [RE.alt [RE.lit w1.toList false, RE.lit w2.toList false],
    RE.plus false (RE.cls isSpaceChar),
    RE.grp 1 (RE.plus false (RE.cls Char.isDigit)),
    RE.star false (RE.cls (fun c => isSpaceChar c || c == ':' || c == '.' || c == '-')),
    RE.grp 2 (RE.plus true (RE.cls jsAnyChar))]

/-- Topic pattern `^#{1,3}\s+(.+?)$` (markdown headers). -/
def topicHashRE : RE :=
  RE.seq [RE.cls (fun c => c == '#'), RE.opt (RE.cls (fun c => c == '#')),
    RE.opt (RE.cls (fun c => c == '#')),
    RE.plus false (RE.cls isSpaceChar), RE.grp 1 (RE.plus true (RE.cls jsAnyChar))]

/-- Topic pattern `^([IVX]+)\.\s+(.+?)$` (roman numerals). -/
def topicRomanRE : RE :=
  RE.seq [RE.grp 1 (RE.plus false (RE.cls (fun c => c == 'I' || c == 'V' || c == 'X'))),
    RE.lit ".".toList false, RE.plus false (RE.cls isSpaceChar),
    RE.grp 2 (RE.plus true (RE.cls jsAnyChar))]

/-- The ordered topic pattern list of `identifyTopics`. -/
def topicPatterns : List RE :=
  [topicNumDotRE, topicLetterRE, topicWordRE "Section" "SECTION",
   topicWordRE "Topic" "TOPIC", topicHashRE, topicRomanRE]

/-- The `/^[\d.]+\s|^[A-Z]\.|^[IVX]+\./` numbering test of `isLikelyTopic`. -/
def topicNumberingTest (s : List Char) : Bool :=
  (!(s.takeWhile (fun c => c.isDigit || c == '.')).isEmpty &&
    (match s.drop (s.takeWhile (fun c => c.isDigit || c == '.')).length with
     | c :: _ => isSpaceChar c
     | [] => false))
  || (match s with
      | a :: b :: _ => a.isUpper && b == '.'
      | _ => false)
  || (!(s.takeWhile (fun c => c == 'I' || c == 'V' || c == 'X')).isEmpty &&
    (match s.drop (s.takeWhile (fun c => c == 'I' || c == 'V' || c == 'X')).length with
     | c :: _ => c == '.'
     | [] => false))

/-- The `isLikelyTopic` acceptance check on the trimmed line and the trimmed
previous line. -/
def isLikelyTopic (line : List Char) (prevTrimmed : List Char) : Bool :=
  let hasEmptyLineBefore := prevTrimmed.isEmpty
  let isShort := line.length < 80
  let hasNumbering := topicNumberingTest line
  (hasEmptyLineBefore || hasNumbering) && isShort

/-- A line starts a topic when some topic pattern matches it and
`isLikelyTopic` accepts it (the check is pattern-independent). -/
def acceptTopicLine (line : List Char) (prevTrimmed : List Char) : Bool :=
  topicPatterns.any (fun p => (reFullMatch p line).isSome) && isLikelyTopic line prevTrimmed

/-- An in-progress section of `identifyTopics` (its `startLine` field is
write-only in the source and omitted). -/
structure TopicSection where
  title : List Char
  content : List (List Char)
deriving DecidableEq, Repr

/-- The line loop of `identifyTopics`: thread the trimmed previous line, open
a section at each accepted boundary, and push non-empty trimmed lines onto the
current section. -/
def scanSections (prev : List Char) (cur : Option TopicSection) :
    List (List Char) → List TopicSection
  | [] =>
      (match cur with
       | some sec => [sec]
       | none => [])
  | l :: rest =>
      let line := jsTrim l
      if acceptTopicLine line prev then
        match cur with
        | some sec => sec :: scanSections line (some ⟨line, []⟩) rest
        | none => scanSections line (some ⟨line, []⟩) rest
      else
        match cur with
        | some sec =>
            if line.isEmpty then scanSections line (some sec) rest
            else scanSections line (some ⟨sec.title, sec.content ++ [line]⟩) rest
        | none => scanSections line none rest

/-- Strip a `^[\d.]+\s+` numbering run (first `cleanTopicTitle` replace). -/
def stripDigitsDotsWs (l : List Char) : List Char :=
  let run := l.takeWhile (fun c => c.isDigit || c == '.')
  if run.isEmpty then l
  else
    let rest := l.drop run.length
    let ws := rest.takeWhile isSpaceChar
    if ws.isEmpty then l else rest.drop ws.length

/-- Strip a `^[A-Z]\.\s+` run. -/
def stripUpperDotWs (l : List Char) : List Char :=
  match l with
  | a :: b :: rest =>
      if a.isUpper && b == '.' then
        let ws := rest.takeWhile isSpaceChar
        if ws.isEmpty then l else rest.drop ws.length
      else l
  | _ => l

/-- Strip a `^[IVX]+\.\s+` run. -/
def stripRomanDotWs (l : List Char) : List Char :=
  let run := l.takeWhile (fun c => c == 'I' || c == 'V' || c == 'X')
  if run.isEmpty then l
  else
    match l.drop run.length with
    | '.' :: rest =>
        let ws := rest.takeWhile isSpaceChar
        if ws.isEmpty then l else rest.drop ws.length
    | _ => l

/-- Tail of the `(?:Section|SECTION|Topic|TOPIC)\s+\d+[\s:.-]*` strip after
the keyword literal. -/
def sectionTopicTail (rest : List Char) : Option (List Char) :=
  let ws := rest.takeWhile isSpaceChar
  if ws.isEmpty then none
  else
    let r1 := rest.drop ws.length
    let ds := r1.takeWhile Char.isDigit
    if ds.isEmpty then none
    else
      let r2 := r1.drop ds.length
      some (r2.drop (r2.takeWhile (fun c => isSpaceChar c || c == ':' || c == '.' || c == '-')).length)

/-- Try one keyword alternative of the Section/Topic strip. -/
def stripLitNumTail (lit : String) (l : List Char) : Option (List Char) :=
  match matchLit lit.toList l with
  | none => none
  | some rest => sectionTopicTail rest

/-- Strip a `^(?:Section|SECTION|Topic|TOPIC)\s+\d+[\s:.-]*` run. -/
def stripSectionTopicWord (l : List Char) : List Char :=
  match stripLitNumTail "Section" l with
  | some r => r
  | none =>
      match stripLitNumTail "SECTION" l with
      | some r => r
      | none =>
          match stripLitNumTail "Topic" l with
          | some r => r
          | none =>
              match stripLitNumTail "TOPIC" l with
              | some r => r
              | none => l

/-- Strip a `^#+\s+` run. -/
def stripHashesWs (l : List Char) : List Char :=
  let run := l.takeWhile (fun c => c == '#')
  if run.isEmpty then l
  else
    let rest := l.drop run.length
    let ws := rest.takeWhile isSpaceChar
    if ws.isEmpty then l else rest.drop ws.length

/-- The chained `cleanTopicTitle` replaces followed by a trim. -/
def cleanTopicTitle (title : List Char) : List Char :=
  jsTrim (stripHashesWs (stripSectionTopicWord (stripRomanDotWs (stripUpperDotWs
    (stripDigitsDotsWs title)))))

/-- Number of maximal non-whitespace runs in the list. -/
def nonWsRuns : Bool → List Char → Nat
  | _, [] => 0
  | inRun, c :: r =>
      if isSpaceChar c then nonWsRuns false r
      else (if inRun then 0 else 1) + nonWsRuns true r

/-- Length of JS `content.split(/\s+/)`: the non-whitespace runs plus an empty
leading piece when the string starts with whitespace, an empty trailing piece
when it ends with whitespace, and the single empty piece for the empty string. -/
def jsWsSplitCount (l : List Char) : Nat :=
  match l with
  | [] => 1
  | c :: _ =>
      nonWsRuns false l + (if isSpaceChar c then 1 else 0) +
        (match l.getLast? with
         | some d => if isSpaceChar d then 1 else 0
         | none => 0)

/-- Topic record produced by `identifyTopics` (`TopicInfo`). -/
structure TopicInfo where
  topicNumber : Nat
  title : String
  content : String
  estimatedTime : Nat
deriving DecidableEq, Repr

/-- Convert scanned sections to topics: 1-based numbering, cleaned title,
content joined with newlines, reading time `max(1, ceil(words / 200))`. -/
def sectionsToTopics (sections : List TopicSection) : List TopicInfo :=
  sections.enum.map (fun p =>
    let content := List.intercalate ['\n'] p.2.content
    { topicNumber := p.1 + 1
      title := String.mk (cleanTopicTitle p.2.title)
      content := String.mk content
      estimatedTime := max 1 ((jsWsSplitCount content + 199) / 200) })

/-- The fallback single section: whole chapter, raw non-blank lines. -/
def mainContentSection (lines : List (List Char)) : TopicSection :=
  ⟨"Main Content".toList, lines.filter (fun l => !(jsTrim l).isEmpty)⟩

/-- The `identifyTopics` section scan and conversion over pre-split lines. -/
def identifyTopicsLines (lines : List (List Char)) : List TopicInfo :=
  let sections := scanSections [] none lines
  let sections := if sections.isEmpty then [mainContentSection lines] else sections
  sectionsToTopics sections

/-- The `identifyTopics` entry point on a chapter content string. -/
def identifyTopics (chapterContent : List Char) : List TopicInfo :=
  identifyTopicsLines (splitNl chapterContent)

/-- Index of the first line the scan accepts as a topic boundary, threading the
trimmed previous line exactly as the scan does. -/
def firstAcceptedFrom (prev : List Char) : List (List Char) → Option Nat
  | [] => none
  | l :: rest =>
      if acceptTopicLine (jsTrim l) prev then some 0
      else (firstAcceptedFrom (jsTrim l) rest).map (fun n => n + 1)

/-- First accepted topic-boundary index of a line list. -/
def firstAccepted (lines : List (List Char)) : Option Nat := firstAcceptedFrom [] lines

/-! ## Concrete extractor inputs used by witnesses and counterexamples -/

/-- Three well-formed dot-leader ToC lines. -/
def exTocLinesPre : List (List Char) :=
  ["1. Alpha ..... 2", "2. Beta ..... 3", "3. Gamma ..... 4"].map String.toList

/-- The same three lines, then a Glossary marker, then a fourth entry. -/
def exTocLines : List (List Char) :=
  ["1. Alpha ..... 2", "2. Beta ..... 3", "3. Gamma ..... 4", "Glossary",
   "4. Delta ..... 5"].map String.toList

/-- A scanner state holding exactly three accumulated ToC entries. -/
def exTocStateThree : TocScanState :=
  ⟨[⟨1, "1 Alpha", -1, -1, 2, -1⟩, ⟨2, "2 Beta", -1, -1, 3, -1⟩,
    ⟨3, "3 Gamma", -1, -1, 4, -1⟩], 3, 0⟩

/-- A scanner state holding four accumulated ToC entries. -/
def exTocStateFour : TocScanState :=
  ⟨[⟨1, "1 Alpha", -1, -1, 2, -1⟩, ⟨2, "2 Beta", -1, -1, 3, -1⟩,
    ⟨3, "3 Gamma", -1, -1, 4, -1⟩, ⟨4, "4 Delta", -1, -1, 5, -1⟩], 4, 0⟩

/-- A heading-only text whose source chapter numbers are 2 and 5. -/
def exSmartText : List Char :=
  "Chapter 2: Alpha\n\nbody text here\n\nChapter 5: Beta\n\nmore body".toList

/-- A two-entry break table. -/
def pbTwo : List Int := [0, 100]

/-- Two chapters listed out of start-offset order. -/
def exChaptersUnsorted : List ChapterInfo :=
  [⟨2, "B", 50, -1, -1, -1⟩, ⟨1, "A", 0, -1, -1, -1⟩]

/-- A five-character text with one form feed. -/
def exC7Text : List Char := "ab\x0ccd".toList

/-! ## Lemmas about grading and deduplication -/

lemma gradeOne_isCorrect (questions : List QuizQuestion) (a : SubmittedAnswer) :
    (gradeOne questions a).isCorrect = answerCorrect questions a := by
  unfold gradeOne answerCorrect
  cases questions.find? (fun q => q.id == a.questionId) <;> rfl

lemma submitQuizGrade_score (questions : List QuizQuestion) (answers : List SubmittedAnswer) :
    (submitQuizGrade questions answers).score = answers.countP (answerCorrect questions) := by
  show ((gradeAnswersOf questions answers).filter (fun a => a.isCorrect)).length
      = answers.countP (answerCorrect questions)
  rw [← List.countP_eq_length_filter, gradeAnswersOf, List.countP_map]
  apply List.countP_congr
  intro a _
  simp [Function.comp, gradeOne_isCorrect]

lemma jsIndexOf_lt_length : ∀ {l : List (Option String)} {t}, t ∈ l → jsIndexOf t l < l.length := by
  intro l
  induction l with
  | nil => intro t h; cases h
  | cons y l ih =>
      intro t h
      simp only [jsIndexOf]
      split
      · simp
      · rename_i hy
        have ht : t ∈ l := by
          rcases List.mem_cons.mp h with h1 | h1
          · exact absurd h1.symm hy
          · exact h1
        simpa [List.length_cons] using Nat.succ_lt_succ (ih ht)

lemma jsIndexOf_append_mem (t : Option String) :
    ∀ (pre rest : List (Option String)), t ∈ pre →
      jsIndexOf t (pre ++ rest) = jsIndexOf t pre := by
  intro pre
  induction pre with
  | nil => intro rest h; cases h
  | cons y pre ih =>
      intro rest h
      simp only [List.cons_append, jsIndexOf]
      split
      · rfl
      · rename_i hy
        have ht : t ∈ pre := by
          rcases List.mem_cons.mp h with h1 | h1
          · exact absurd h1.symm hy
          · exact h1
        show jsIndexOf t (pre ++ rest) + 1 = jsIndexOf t pre + 1
        rw [ih rest ht]

lemma jsIndexOf_append_not_mem (t : Option String) :
    ∀ (pre rest : List (Option String)), t ∉ pre →
      jsIndexOf t (pre ++ t :: rest) = pre.length := by
  intro pre
  induction pre with
  | nil => intro rest _; simp [jsIndexOf]
  | cons y pre ih =>
      intro rest h
      have hy : ¬ (y = t) := fun he => h (he ▸ List.mem_cons_self y pre)
      have hpre : t ∉ pre := fun hm => h (List.mem_cons_of_mem y hm)
      simp only [List.cons_append, jsIndexOf, if_neg hy, List.length_cons]
      show jsIndexOf t (pre ++ t :: rest) + 1 = pre.length + 1
      rw [ih rest hpre]

lemma jsDedupTruthy_go :
    ∀ (suf pre : List (Option String)),
      ((List.enumFrom pre.length suf).filter
          (fun p => truthyStr p.2 && decide (jsIndexOf p.2 (pre ++ suf) = p.1))).map
        (fun p => p.2.getD "")
        = dedupTruthyFirst pre suf := by
  intro suf
  induction suf with
  | nil => intro pre; simp [dedupTruthyFirst, List.enumFrom]
  | cons t rest ih =>
      intro pre
      have harr : pre ++ t :: rest = (pre ++ [t]) ++ rest := by simp
      have hlen : (pre ++ [t]).length = pre.length + 1 := by simp
      have htail := ih (pre ++ [t])
      rw [hlen] at htail
      rw [← harr] at htail
      by_cases htr : truthyStr t = true
      · by_cases hmem : t ∈ pre
        · have hne : jsIndexOf t (pre ++ t :: rest) ≠ pre.length := by
            rw [jsIndexOf_append_mem t pre (t :: rest) hmem]
            exact Nat.ne_of_lt (jsIndexOf_lt_length hmem)
          simp only [List.enumFrom, List.filter_cons, dedupTruthyFirst]
          simp [hne, hmem, htr, htail]
        · have heq : jsIndexOf t (pre ++ t :: rest) = pre.length :=
            jsIndexOf_append_not_mem t pre rest hmem
          simp only [List.enumFrom, List.filter_cons, dedupTruthyFirst]
          simp [heq, hmem, htr, htail]
      · simp only [List.enumFrom, List.filter_cons, dedupTruthyFirst]
        simp [htr, htail]

lemma jsDedupTruthy_eq_dedupTruthyFirst (arr : List (Option String)) :
    jsDedupTruthy arr = dedupTruthyFirst [] arr := by
  have h := jsDedupTruthy_go arr []
  simpa [jsDedupTruthy, List.enum] using h

/-! ## Claims about grading and the tutoring state machine -/

/-- C2: for every quiz submission the returned score counts the submitted
answers whose selected answer is string-equal to the stored question's correct
answer, and passed holds exactly when the score is at least 6; in particular
ten answers with exactly six correct pass, and with exactly five do not. -/
theorem submitQuiz_score_passed (questions : List QuizQuestion)
    (answers : List SubmittedAnswer) :
    (submitQuizGrade questions answers).score = answers.countP (answerCorrect questions) ∧
    ((submitQuizGrade questions answers).passed = true ↔
      6 ≤ (submitQuizGrade questions answers).score) ∧
    ((submitQuizGrade exQuestionsTen exAnswersSix).totalQuestions = 10 ∧
      (submitQuizGrade exQuestionsTen exAnswersSix).score = 6 ∧
      (submitQuizGrade exQuestionsTen exAnswersSix).passed = true) ∧
    ((submitQuizGrade exQuestionsTen exAnswersFive).totalQuestions = 10 ∧
      (submitQuizGrade exQuestionsTen exAnswersFive).score = 5 ∧
      (submitQuizGrade exQuestionsTen exAnswersFive).passed = false) := by
  refine ⟨submitQuizGrade_score questions answers, ?_, by decide, by decide⟩
  simp [submitQuizGrade]

/-- C3: a passing quiz submission appends the chapter number to both
`chaptersCompleted` and `quizzesPassed`, moves to the next chapter's first
topic, re-enters the introduction phase, clears the review flag and resets the
message count. -/
theorem submitQuiz_pass_transition (questions : List QuizQuestion)
    (answers : List SubmittedAnswer) (chapterNumber : Nat) (st : LearningState)
    (hphase : st.learningPhase = "quiz-ready" ∨ st.learningPhase = "review")
    (hpass : (submitQuizGrade questions answers).passed = true) :
    (submitQuizAnswersState questions answers chapterNumber st).2 =
      { st with
        chaptersCompleted := st.chaptersCompleted ++ [chapterNumber]
        quizzesPassed := st.quizzesPassed ++ [chapterNumber]
        currentChapter := chapterNumber + 1
        currentTopic := 1
        learningPhase := "introduction"
        needsReview := false
        messageCount := 0 } := by
  simp [submitQuizAnswersState, applyQuizOutcome, hpass]

/-- Witness for C3 at a concrete passing submission from the quiz-ready phase. -/
theorem submitQuiz_pass_transition_witness :
    (submitQuizAnswersState exQuestionsTen exAnswersSix 2 stQuizReady).2 =
      { stQuizReady with
        chaptersCompleted := stQuizReady.chaptersCompleted ++ [2]
        quizzesPassed := stQuizReady.quizzesPassed ++ [2]
        currentChapter := 3
        currentTopic := 1
        learningPhase := "introduction"
        needsReview := false
        messageCount := 0 } :=
  submitQuiz_pass_transition exQuestionsTen exAnswersSix 2 stQuizReady (Or.inl rfl) (by decide)

/-- C4 counterexample: a failing submission with an incorrect answer whose
stored question has the empty string as `topicCovered` — the code's truthiness
filter drops it, so `reviewTopics` is not the deduplicated list of all
`topicCovered` values of incorrect answers that the claim describes. -/
theorem submitQuiz_fail_reviewTopics_counterexample :
    (submitQuizGrade [qEmptyTopic] [aWrongEmptyTopic]).passed = false ∧
    (submitQuizAnswersState [qEmptyTopic] [aWrongEmptyTopic] 1 stQuizReady).2.reviewTopics
      = [] ∧
    weakTopicsClaim [qEmptyTopic] [aWrongEmptyTopic] = [""] ∧
    (submitQuizAnswersState [qEmptyTopic] [aWrongEmptyTopic] 1 stQuizReady).2.reviewTopics
      ≠ weakTopicsClaim [qEmptyTopic] [aWrongEmptyTopic] :=
  ⟨by decide, by decide, by decide, by decide⟩

/-- C4 amended: a failing quiz submission sets the phase to review, raises the
review flag and stores as `reviewTopics` the first-occurrence deduplication of
the present, non-empty `topicCovered` values of the incorrect answers, leaving
every other learning-state field (chapter and topic pointers, completion lists,
message count) unchanged. -/
theorem submitQuiz_fail_transition (questions : List QuizQuestion)
    (answers : List SubmittedAnswer) (chapterNumber : Nat) (st : LearningState)
    (hfail : (submitQuizGrade questions answers).passed = false) :
    (submitQuizAnswersState questions answers chapterNumber st).2 =
      { st with
        learningPhase := "review"
        needsReview := true
        reviewTopics := weakTopicsOf questions answers } ∧
    weakTopicsOf questions answers =
      dedupTruthyFirst []
        (((gradeAnswersOf questions answers).filter (fun a => !a.isCorrect)).map
          (fun a => a.topicCovered)) := by
  refine ⟨?_, jsDedupTruthy_eq_dedupTruthyFirst _⟩
  show applyQuizOutcome chapterNumber (submitQuizGrade questions answers).passed
      (submitQuizGrade questions answers).weakTopics st = _
  rw [hfail]
  rfl

/-- Witness for the amended C4 at a concrete failing submission. -/
theorem submitQuiz_fail_transition_witness :
    (submitQuizAnswersState exQuestionsTen exAnswersFive 2 stQuizReady).2 =
      { stQuizReady with
        learningPhase := "review"
        needsReview := true
        reviewTopics := weakTopicsOf exQuestionsTen exAnswersFive } ∧
    weakTopicsOf exQuestionsTen exAnswersFive =
      dedupTruthyFirst []
        (((gradeAnswersOf exQuestionsTen exAnswersFive).filter (fun a => !a.isCorrect)).map
          (fun a => a.topicCovered)) :=
  submitQuiz_fail_transition exQuestionsTen exAnswersFive 2 stQuizReady (by decide)

/-- C5: with the current chapter present and holding T ≥ 1 topics, completing
topic T switches the phase to quiz-ready and resets the message count, leaving
the current topic untouched, while completing a topic t < T advances the
current topic to t + 1 and resets the message count without a phase change. -/
theorem completeTopic_last_vs_inner (T t : Nat) (st : LearningState) (hT : 1 ≤ T) :
    (t = T → completeTopicState (some T) t st =
        ({ st with learningPhase := "quiz-ready", messageCount := 0 }, true)) ∧
    (t < T → completeTopicState (some T) t st =
        ({ st with currentTopic := t + 1, messageCount := 0 }, false)) := by
  constructor
  · intro h
    subst h
    simp only [completeTopicState]
    rw [if_pos ⟨hT, Nat.le_refl _⟩]
  · intro h
    simp only [completeTopicState]
    rw [if_neg fun hc => absurd hc.2 (Nat.not_le_of_lt h)]

/-- Witness for C5 with a three-topic chapter: completing topic 3 versus 2. -/
theorem completeTopic_last_vs_inner_witness :
    (completeTopicState (some 3) 3 stLearning =
        ({ stLearning with learningPhase := "quiz-ready", messageCount := 0 }, true)) ∧
    (completeTopicState (some 3) 2 stLearning =
        ({ stLearning with currentTopic := 3, messageCount := 0 }, false)) :=
  ⟨(completeTopic_last_vs_inner 3 3 stLearning (by decide)).1 rfl,
   (completeTopic_last_vs_inner 3 2 stLearning (by decide)).2 (by decide)⟩

/-- C9: an answer whose question id is not among the stored questions is graded
incorrect with an unresolved correct answer, while every other answer is graded
exactly as usual and the graded list keeps one entry per submitted answer. -/
theorem submitQuiz_missing_question (questions : List QuizQuestion)
    (answers : List SubmittedAnswer) (i j : Nat) (a b : SubmittedAnswer)
    (hi : answers[i]? = some a)
    (hmiss : questions.find? (fun q => q.id == a.questionId) = none)
    (hj : answers[j]? = some b) :
    (gradeAnswersOf questions answers)[i]? =
      some { questionId := a.questionId, selectedAnswer := a.selectedAnswer,
             correctAnswer := none, isCorrect := false, topicCovered := none } ∧
    (gradeAnswersOf questions answers).length = answers.length ∧
    (gradeAnswersOf questions answers)[j]? = some (gradeOne questions b) := by
  refine ⟨?_, by simp [gradeAnswersOf], ?_⟩
  · rw [gradeAnswersOf, List.getElem?_map, hi]
    simp [gradeOne, hmiss]
  · rw [gradeAnswersOf, List.getElem?_map, hj]
    rfl

/-- Witness for C9: a two-answer submission whose first answer references an
unknown question id. -/
theorem submitQuiz_missing_question_witness :
    (gradeAnswersOf exQuestionsTen exAnswersMissing)[0]? =
      some { questionId := "zzz", selectedAnswer := "A",
             correctAnswer := none, isCorrect := false, topicCovered := none } ∧
    (gradeAnswersOf exQuestionsTen exAnswersMissing).length = exAnswersMissing.length ∧
    (gradeAnswersOf exQuestionsTen exAnswersMissing)[1]? =
      some (gradeOne exQuestionsTen ⟨"q1", "A"⟩) :=
  submitQuiz_missing_question exQuestionsTen exAnswersMissing 0 1 ⟨"zzz", "A"⟩ ⟨"q1", "A"⟩
    (by rfl) (by decide) (by rfl)

/-! ## Lemmas about finalizeChapters and getPageNumber -/

lemma assignEnds_zero_start (pb : List Int) (tl : Int) (c : ChapterInfo) (l : List ChapterInfo) :
    ((assignEnds pb tl (c :: l))[0]?).map (fun x => x.startIndex) = some c.startIndex := by
  cases l <;> simp [assignEnds]

lemma assignEnds_pair (pb : List Int) (tl : Int) :
    ∀ (l : List ChapterInfo) (i : Nat) (ci cj : ChapterInfo),
      (assignEnds pb tl l)[i]? = some ci → (assignEnds pb tl l)[i + 1]? = some cj →
      ci.endIndex + 1 = cj.startIndex := by
  intro l
  induction l with
  | nil => intro i ci cj hi _; simp [assignEnds] at hi
  | cons c1 l ih =>
      cases l with
      | nil =>
          intro i ci cj _ hj
          simp [assignEnds] at hj
      | cons c2 rest =>
          intro i ci cj hi hj
          simp only [assignEnds] at hi hj
          cases i with
          | zero =>
              rw [List.getElem?_cons_zero] at hi
              rw [List.getElem?_cons_succ] at hj
              injection hi with hi
              have h0 := assignEnds_zero_start pb tl c2 rest
              rw [hj] at h0
              simp only [Option.map_some'] at h0
              injection h0 with h0
              rw [← hi]
              show c2.startIndex - 1 + 1 = cj.startIndex
              omega
          | succ n =>
              rw [List.getElem?_cons_succ] at hi hj
              exact ih n ci cj hi hj

lemma assignEnds_last (pb : List Int) (tl : Int) :
    ∀ (l : List ChapterInfo) (cl : ChapterInfo),
      (assignEnds pb tl l).getLast? = some cl → cl.endIndex = tl := by
  intro l
  induction l with
  | nil => intro cl h; simp [assignEnds] at h
  | cons c1 l ih =>
      cases l with
      | nil =>
          intro cl h
          simp only [assignEnds, List.getLast?_singleton] at h
          injection h with h
          rw [← h]
      | cons c2 rest =>
          intro cl h
          simp only [assignEnds] at h
          cases hout : assignEnds pb tl (c2 :: rest) with
          | nil => cases rest <;> simp [assignEnds] at hout
          | cons d ds =>
              rw [hout, List.getLast?_cons_cons] at h
              exact ih cl (by rw [hout]; exact h)

lemma getPageNumberGo_ge_one :
    ∀ (l : List Int) (p fb : Nat) (t : Int), 1 ≤ fb → 1 ≤ p →
      1 ≤ getPageNumberGo fb l p t := by
  intro l
  induction l with
  | nil => intro p fb t hfb _; simpa [getPageNumberGo] using hfb
  | cons b1 l ih =>
      cases l with
      | nil => intro p fb t hfb _; simpa [getPageNumberGo] using hfb
      | cons b2 rest =>
          intro p fb t hfb hp
          simp only [getPageNumberGo]
          split
          · exact hp
          · exact ih (p + 1) fb t hfb (Nat.le_trans hp (Nat.le_succ p))

lemma getPageNumberGo_le :
    ∀ (l : List Int) (p fb : Nat) (t : Int),
      getPageNumberGo fb l p t + 2 ≤ max (fb + 2) (p + l.length) := by
  intro l
  induction l with
  | nil => intro p fb t; simp [getPageNumberGo]
  | cons b1 l ih =>
      cases l with
      | nil => intro p fb t; simp [getPageNumberGo]
      | cons b2 rest =>
          intro p fb t
          simp only [getPageNumberGo, List.length_cons]
          split
          · omega
          · have h := ih (p + 1) fb t
            simp only [List.length_cons] at h
            omega

lemma findPageBreaks_length (text : List Char) : 2 ≤ (findPageBreaks text).length := by
  simp only [findPageBreaks, List.length_cons, List.length_append]
  omega

/-! ## Claims about the chapter assembler and the page index -/

/-- C6: in a finalized chapter list every chapter's end offset is one less
than the next chapter's start offset, and the last chapter ends exactly at the
text length. -/
theorem finalizeChapters_contiguous (pageBreaks : List Int) (textLen : Int)
    (cs : List ChapterInfo) (i : Nat) (ci cj cl : ChapterInfo) :
    ((finalizeChapters pageBreaks textLen cs)[i]? = some ci →
      (finalizeChapters pageBreaks textLen cs)[i + 1]? = some cj →
      ci.endIndex + 1 = cj.startIndex) ∧
    ((finalizeChapters pageBreaks textLen cs).getLast? = some cl →
      cl.endIndex = textLen) :=
  ⟨fun hi hj => assignEnds_pair pageBreaks textLen (sortByStart cs) i ci cj hi hj,
   fun hl => assignEnds_last pageBreaks textLen (sortByStart cs) cl hl⟩

/-- Witness for C6 on a two-chapter list given out of order. -/
theorem finalizeChapters_contiguous_witness :
    ((⟨1, "A", 0, 49, -1, 1⟩ : ChapterInfo).endIndex + 1 =
      (⟨2, "B", 50, 100, -1, 1⟩ : ChapterInfo).startIndex) ∧
    ((⟨2, "B", 50, 100, -1, 1⟩ : ChapterInfo).endIndex = 100) :=
  ⟨(finalizeChapters_contiguous pbTwo 100 exChaptersUnsorted 0
      ⟨1, "A", 0, 49, -1, 1⟩ ⟨2, "B", 50, 100, -1, 1⟩ ⟨2, "B", 50, 100, -1, 1⟩).1
      (by decide) (by decide),
   (finalizeChapters_contiguous pbTwo 100 exChaptersUnsorted 0
      ⟨1, "A", 0, 49, -1, 1⟩ ⟨2, "B", 50, 100, -1, 1⟩ ⟨2, "B", 50, 100, -1, 1⟩).2
      (by decide)⟩

/-- C7: for every break table built from a text and every offset inside the
text, the page lookup returns a page between 1 and the number of pages implied
by the table; it never fails and never leaves that range. -/
theorem getPageNumber_total (text : List Char) (off : Int)
    (h0 : 0 ≤ off) (h1 : off ≤ (text.length : Int)) :
    1 ≤ getPageNumber (findPageBreaks text) off ∧
    getPageNumber (findPageBreaks text) off ≤ (findPageBreaks text).length - 1 := by
  have hlen := findPageBreaks_length text
  constructor
  · exact getPageNumberGo_ge_one (findPageBreaks text) 1
      (max 1 ((findPageBreaks text).length - 1)) off (Nat.le_max_left 1 _) (Nat.le_refl 1)
  · have h := getPageNumberGo_le (findPageBreaks text) 1
      (max 1 ((findPageBreaks text).length - 1)) off
    show getPageNumberGo (max 1 ((findPageBreaks text).length - 1))
      (findPageBreaks text) 1 off ≤ (findPageBreaks text).length - 1
    omega

/-- Witness for C7 at an interior offset of a two-page text. -/
theorem getPageNumber_total_witness :
    1 ≤ getPageNumber (findPageBreaks exC7Text) 3 ∧
    getPageNumber (findPageBreaks exC7Text) 3 ≤ (findPageBreaks exC7Text).length - 1 :=
  getPageNumber_total exC7Text 3 (by decide) (by decide)

/-- C8 counterexample: with exactly three entries accumulated, a line starting
with "Glossary" does not stop the scan — a later matching line still becomes a
fourth entry, both at the loop level and over a full five-line scan. -/
theorem detectToC_stop_counterexample :
    exTocStateThree.chapters.length = 3 ∧
    isEndMarker (jsTrim "Glossary".toList) = true ∧
    detectToCScanGo 10 ["Glossary".toList, "4. Delta ..... 5".toList] exTocStateThree ≠
      exTocStateThree.chapters ∧
    (detectToCScan 10 exTocLinesPre).length = 3 ∧
    (detectToCScan 10 exTocLines).length = 4 :=
  ⟨by decide, by decide, by decide, by decide, by decide⟩

/-- C8 amended: during the ToC line scan, a line starting with Glossary, Index
or Appendix stops the scan immediately — the accumulated chapters are returned
untouched whatever follows — exactly when more than three (at least four)
entries have already been accumulated. -/
theorem detectToC_endMarker_stop (pageBreaksLen : Nat) (line : List Char)
    (rest : List (List Char)) (st : TocScanState)
    (hmark : isEndMarker (jsTrim line) = true)
    (hcount : 3 < st.chapters.length) :
    detectToCScanGo pageBreaksLen (line :: rest) st = st.chapters := by
  have hne : (jsTrim line).isEmpty = false := by
    cases h : jsTrim line with
    | nil => rw [h] at hmark; simp [isEndMarker, ciHasPre, matchLitCI] at hmark
    | cons c cs => rfl
  simp only [detectToCScanGo, hne, Bool.false_eq_true, if_false]
  rw [if_pos ⟨hmark, hcount⟩]

/-- Witness for the amended C8: four accumulated entries, then a Glossary line
followed by a line that would match. -/
theorem detectToC_endMarker_stop_witness :
    detectToCScanGo 10 ["Glossary".toList, "5. Eps ..... 6".toList] exTocStateFour =
      exTocStateFour.chapters :=
  detectToC_endMarker_stop 10 "Glossary".toList ["5. Eps ..... 6".toList] exTocStateFour
    (by decide) (by decide)

lemma range'_one_concat (n : Nat) : List.range' 1 (n + 1) = List.range' 1 n ++ [n + 1] := by
  have h : List.range' 1 (n + 1) = List.range' 1 n ++ [1 + 1 * n] := List.range'_concat 1 n
  simpa [Nat.add_comm] using h

lemma detectToCScanGo_numbers (pageBreaksLen : Nat) :
    ∀ (lines : List (List Char)) (st : TocScanState),
      st.counter = st.chapters.length →
      st.chapters.map (fun c => c.chapterNumber) = List.range' 1 st.counter →
      (detectToCScanGo pageBreaksLen lines st).map (fun c => c.chapterNumber) =
        List.range' 1 (detectToCScanGo pageBreaksLen lines st).length := by
  intro lines
  induction lines with
  | nil =>
      intro st h1 h2
      simp only [detectToCScanGo]
      rw [h2, ← h1]
  | cons line rest ih =>
      intro st h1 h2
      simp only [detectToCScanGo]
      split
      · exact ih st h1 h2
      · split
        · rw [h2, ← h1]
        · split
          · split
            · apply ih
              · simp [h1]
              · simp only [List.map_append, List.map_cons, List.map_nil, h2, h1]
                rw [← range'_one_concat]
            · split
              · rw [h2, ← h1]
              · exact ih _ h1 h2
          · split
            · rw [h2, ← h1]
            · exact ih _ h1 h2

lemma tryPatternsSmart_fresh :
    ∀ (pats : List RE) (trimmed : List Char) (lines : List (List Char)) (i : Nat)
      (curIdx : Int) (pbs : List Int) (chapters : List ChapterInfo) (c : ChapterInfo),
      tryPatternsSmart pats trimmed lines i curIdx pbs chapters = some c →
      ∀ x ∈ chapters, x.chapterNumber ≠ c.chapterNumber := by
  intro pats
  induction pats with
  | nil => intro _ _ _ _ _ _ c h; simp [tryPatternsSmart] at h
  | cons pat rest ih =>
      intro trimmed lines i curIdx pbs chapters c h
      simp only [tryPatternsSmart] at h
      split at h
      · split at h
        · split at h
          · exact ih trimmed lines i curIdx pbs chapters c h
          · rename_i hdup
            injection h with h
            intro x hx hnum
            apply hdup
            rw [List.find?_isSome]
            refine ⟨x, hx, ?_⟩
            rw [beq_iff_eq, hnum, ← h]
        · exact ih trimmed lines i curIdx pbs chapters c h
      · exact ih trimmed lines i curIdx pbs chapters c h

lemma smartGo_nodup (text : List Char) (pbs : List Int) (lines : List (List Char)) :
    ∀ (rem : List (List Char)) (i : Nat) (curIdx : Int) (chapters : List ChapterInfo),
      (chapters.map (fun c => c.chapterNumber)).Nodup →
      ((smartGo text pbs lines rem i curIdx chapters).map (fun c => c.chapterNumber)).Nodup := by
  intro rem
  induction rem with
  | nil => intro i curIdx chapters h; simpa [smartGo] using h
  | cons l rest ih =>
      intro i curIdx chapters h
      simp only [smartGo]
      split
      · exact ih _ _ _ h
      · split
        · rename_i c hm
          apply ih
          rw [List.map_append, List.map_cons, List.map_nil]
          apply List.Nodup.append h (List.nodup_singleton _)
          intro a ha hb
          rw [List.mem_singleton] at hb
          rw [List.mem_map] at ha
          obtain ⟨x, hx, rfl⟩ := ha
          exact tryPatternsSmart_fresh smartPatterns _ lines i _ pbs chapters c hm x hx hb
        · exact ih _ _ _ h

instance : IsTotal ChapterInfo (fun a b => a.chapterNumber ≤ b.chapterNumber) :=
  ⟨fun a b => Nat.le_total a.chapterNumber b.chapterNumber⟩

instance : IsTrans ChapterInfo (fun a b => a.chapterNumber ≤ b.chapterNumber) :=
  ⟨fun _ _ _ hab hbc => Nat.le_trans hab hbc⟩

/-- C1 counterexample: a heading-only text whose headings are "Chapter 2" and
"Chapter 5" assembles to chapter numbers [2, 5], not a gapless 1..N sequence. -/
theorem assemble_numbering_counterexample :
    ((finalizeChapters (findPageBreaks exSmartText) (exSmartText.length : Int)
        (detectChaptersSmart exSmartText (findPageBreaks exSmartText))).map
      (fun c => c.chapterNumber)) = [2, 5] ∧
    ([2, 5] : List Nat) ≠ [1, 2] :=
  ⟨by decide, by decide⟩

/-- C1 amended: the line-based ToC parser assigns strictly sequential chapter
numbers 1..N in scan order, while the heading detector keeps the source-parsed
chapter numbers — deduplicated and sorted, hence strictly increasing, but not
renumbered to start at 1 or to be gapless. -/
theorem assemble_numbering_amended :
    (∀ (pageBreaksLen : Nat) (lines : List (List Char)),
      (detectToCScan pageBreaksLen lines).map (fun c => c.chapterNumber) =
        List.range' 1 (detectToCScan pageBreaksLen lines).length) ∧
    (∀ (text : List Char) (pbs : List Int),
      ((detectChaptersSmart text pbs).map (fun c => c.chapterNumber)).Chain'
        (fun a b => a < b)) := by
  constructor
  · intro pageBreaksLen lines
    exact detectToCScanGo_numbers pageBreaksLen lines ⟨[], 0, 0⟩ rfl rfl
  · intro text pbs
    have hnodup : ((smartGo text pbs (splitNl text) (splitNl text) 0 0 []).map
        (fun c => c.chapterNumber)).Nodup :=
      smartGo_nodup text pbs (splitNl text) (splitNl text) 0 0 [] (by simp)
    have hperm : List.Perm
        (sortByNumber (smartGo text pbs (splitNl text) (splitNl text) 0 0 []))
        (smartGo text pbs (splitNl text) (splitNl text) 0 0 []) :=
      List.perm_insertionSort _ _
    have hsorted : List.Sorted (fun a b => a.chapterNumber ≤ b.chapterNumber)
        (sortByNumber (smartGo text pbs (splitNl text) (splitNl text) 0 0 [])) :=
      List.sorted_insertionSort _ _
    have hnodup2 : ((sortByNumber (smartGo text pbs (splitNl text) (splitNl text) 0 0 [])).map
        (fun c => c.chapterNumber)).Nodup :=
      ((hperm.map (fun c => c.chapterNumber)).nodup_iff).mpr hnodup
    have hle : ((sortByNumber (smartGo text pbs (splitNl text) (splitNl text) 0 0 [])).map
        (fun c => c.chapterNumber)).Pairwise (fun a b => a ≤ b) := by
      rw [List.pairwise_map]
      exact hsorted
    have hlt : ((sortByNumber (smartGo text pbs (splitNl text) (splitNl text) 0 0 [])).map
        (fun c => c.chapterNumber)).Pairwise (fun a b => a < b) :=
      (hle.and hnodup2).imp (fun h => Nat.lt_of_le_of_ne h.1 h.2)
    exact hlt.chain'

lemma acceptTopicLine_empty_prev (line prev : List Char)
    (h : acceptTopicLine line prev = true) : acceptTopicLine line [] = true := by
  simp only [acceptTopicLine, isLikelyTopic, Bool.and_eq_true, Bool.or_eq_true] at h ⊢
  exact ⟨h.1, Or.inl rfl, h.2.2⟩

lemma scanSections_none_of_firstAccepted_none :
    ∀ (lines : List (List Char)) (prev : List Char),
      firstAcceptedFrom prev lines = none → scanSections prev none lines = [] := by
  intro lines
  induction lines with
  | nil => intro prev _; rfl
  | cons l rest ih =>
      intro prev h
      simp only [firstAcceptedFrom] at h
      by_cases ha : acceptTopicLine (jsTrim l) prev = true
      · rw [if_pos ha] at h; simp at h
      · rw [if_neg ha] at h
        have hrec : firstAcceptedFrom (jsTrim l) rest = none := by
          cases hx : firstAcceptedFrom (jsTrim l) rest with
          | none => rfl
          | some n => rw [hx] at h; simp at h
        simp only [scanSections]
        rw [if_neg ha]
        exact ih (jsTrim l) hrec

lemma scanSections_some_ne_nil :
    ∀ (lines : List (List Char)) (prev : List Char) (sec : TopicSection),
      scanSections prev (some sec) lines ≠ [] := by
  intro lines
  induction lines with
  | nil => intro prev sec; simp [scanSections]
  | cons l rest ih =>
      intro prev sec
      simp only [scanSections]
      by_cases ha : acceptTopicLine (jsTrim l) prev = true
      · rw [if_pos ha]; simp
      · rw [if_neg ha]
        by_cases he : (jsTrim l).isEmpty = true
        · rw [if_pos he]; exact ih _ _
        · rw [if_neg he]; exact ih _ _

lemma scanSections_accepted_ne_nil :
    ∀ (lines : List (List Char)) (prev : List Char) (i0 : Nat),
      firstAcceptedFrom prev lines = some i0 → scanSections prev none lines ≠ [] := by
  intro lines
  induction lines with
  | nil => intro prev i0 h; simp [firstAcceptedFrom] at h
  | cons l rest ih =>
      intro prev i0 h
      simp only [firstAcceptedFrom] at h
      by_cases ha : acceptTopicLine (jsTrim l) prev = true
      · simp only [scanSections]
        rw [if_pos ha]
        exact scanSections_some_ne_nil rest (jsTrim l) ⟨jsTrim l, []⟩
      · rw [if_neg ha] at h
        cases hx : firstAcceptedFrom (jsTrim l) rest with
        | none => rw [hx] at h; simp at h
        | some n =>
            simp only [scanSections]
            rw [if_neg ha]
            exact ih (jsTrim l) n hx

lemma scanSections_drop :
    ∀ (lines : List (List Char)) (prev : List Char) (i0 : Nat),
      firstAcceptedFrom prev lines = some i0 →
      scanSections prev none lines = scanSections [] none (lines.drop i0) := by
  intro lines
  induction lines with
  | nil => intro prev i0 h; simp [firstAcceptedFrom] at h
  | cons l rest ih =>
      intro prev i0 h
      simp only [firstAcceptedFrom] at h
      by_cases ha : acceptTopicLine (jsTrim l) prev = true
      · rw [if_pos ha] at h
        injection h with h
        subst h
        have ha0 : acceptTopicLine (jsTrim l) [] = true := acceptTopicLine_empty_prev _ _ ha
        rw [List.drop_zero]
        simp only [scanSections]
        rw [if_pos ha, if_pos ha0]
      · rw [if_neg ha] at h
        cases hx : firstAcceptedFrom (jsTrim l) rest with
        | none => rw [hx] at h; simp at h
        | some n =>
            rw [hx] at h
            simp only [Option.map_some'] at h
            injection h with h
            subst h
            simp only [scanSections]
            rw [if_neg ha]
            rw [List.drop_succ_cons]
            exact ih (jsTrim l) n hx

/-- C10: whenever the scan accepts at least one topic boundary, the lines
before the first accepted boundary contribute to no returned topic — the
result is that of the suffix starting at the boundary; only when no boundary
is accepted does the whole chapter become the single "Main Content" topic of
raw non-blank lines. -/
theorem identifyTopics_prefix_dropped (lines : List (List Char)) :
    identifyTopicsLines lines =
      (match firstAccepted lines with
       | some i0 => identifyTopicsLines (lines.drop i0)
       | none => sectionsToTopics [mainContentSection lines]) := by
  cases h : firstAccepted lines with
  | some i0 =>
      have heq := scanSections_drop lines [] i0 h
      have hne := scanSections_accepted_ne_nil lines [] i0 h
      rw [heq] at hne
      have hemp : (scanSections [] none (lines.drop i0)).isEmpty = false := by
        cases hx : scanSections [] none (lines.drop i0) with
        | nil => exact absurd hx hne
        | cons a b => rfl
      simp only [identifyTopicsLines, heq, hemp, Bool.false_eq_true, if_false]
  | none =>
      have h0 := scanSections_none_of_firstAccepted_none lines [] h
      simp only [identifyTopicsLines, h0, List.isEmpty_nil, if_true]
